import Mathlib

/-!
Verification of the reference-advertisement rewriting engine of upper/gopkg.

The Go source (src/main.go) is shallowly embedded here.  Byte strings are
modelled as `List Nat` (one entry per byte, ASCII codes); Go slice
expressions, which can panic at run time, are modelled by `goSlice`, which
returns `none` exactly when Go would panic.  The version model
(`Version`, `parseVersion`, `Less`, `Contains`) lives in a file of the
repository that is not part of the sources given, so it is modelled from
the specification (each such definition says so in its doc comment).
-/

/-- Bytes of a Go string or byte slice, one `Nat` (0..255) per byte. -/
abbrev Bytes := List Nat

/-- Bytes of a literal string (ASCII). -/
def strB (s : String) : Bytes := s.toList.map Char.toNat

/-- Value of an ASCII hexadecimal digit, as accepted by Go `strconv.ParseInt`
with base 16 (both letter cases). -/
def hexDigit (c : Nat) : Option Nat :=
  if 48 ≤ c ∧ c ≤ 57 then some (c - 48)
  else if 97 ≤ c ∧ c ≤ 102 then some (c - 87)
  else if 65 ≤ c ∧ c ≤ 70 then some (c - 55)
  else none

/-- Magnitude part of `strconv.ParseInt(s, 16, 32)`: a non-empty run of
hexadecimal digits. -/
def hexMag (s : Bytes) : Option Nat :=
  match s with
  | [] => none
  | _ => s.foldlM (fun acc c => (hexDigit c).map (fun d => acc * 16 + d)) 0

/-- Go `strconv.ParseInt(s, 16, 32)`: optional sign, then hexadecimal
digits, with the 32-bit range check.  `none` models a non-nil error. -/
def parseInt16 (s : Bytes) : Option Int :=
  match s with
  | 43 :: rest => (hexMag rest).bind (fun n => if n ≤ 2147483647 then some (n : Int) else none)
  | 45 :: rest => (hexMag rest).bind (fun n => if n ≤ 2147483648 then some (-(n : Int)) else none)
  | _ => (hexMag s).bind (fun n => if n ≤ 2147483647 then some (n : Int) else none)

/-- Go slice expression `s[a:b]`.  Returns `none` exactly when Go panics,
i.e. unless `0 ≤ a ≤ b ≤ len s`. -/
def goSlice (s : Bytes) (a b : Int) : Option Bytes :=
  if 0 ≤ a ∧ a ≤ b ∧ b ≤ (s.length : Int) then
    some ((s.drop a.toNat).take (b - a).toNat)
  else none

/-- Go `strings.IndexByte`, as an option instead of -1. -/
def indexOfB (c : Nat) : Bytes → Option Nat
  | [] => none
  | a :: s => if a = c then some 0 else (indexOfB c s).map (· + 1)

/-- Go `strings.IndexAny(s, "\n\x00")`, as an option instead of -1. -/
def indexOfNL0 : Bytes → Option Nat
  | [] => none
  | a :: s => if a = 10 ∨ a = 0 then some 0 else (indexOfNL0 s).map (· + 1)

/-- Replacement worker, structurally recursive on fuel; every step
consumes at least one byte of the remaining input, so fuel equal to the
input length (as supplied by `replaceAll`) is always enough. -/
def replaceAllGo : Nat → Bytes → Bytes → Bytes → Bytes
  | _, [], _, _ => []
  | 0, s, _, _ => s
  | fuel + 1, a :: t, pat, rep =>
    if pat ≠ [] ∧ pat.isPrefixOf (a :: t) then
      rep ++ replaceAllGo fuel ((a :: t).drop pat.length) pat rep
    else
      a :: replaceAllGo fuel t pat rep

/-- Go `strings.Replace(s, pat, rep, -1)`: replace every non-overlapping
occurrence of `pat`, left to right. -/
def replaceAll (s pat rep : Bytes) : Bytes := replaceAllGo s.length s pat rep

/-!
## Version model

The file of the repository defining the version model is not among the
given sources; only its use sites in src/main.go are (`Version`,
`InvalidVersion`, `parseVersion`, `Less`, `Contains`, `IsValid`,
`unstableSuffix`).  The definitions below are modelled from the
specification (sections 3 and 4.1).  The struct layout (`Major`, `Minor`,
`Patch`, `Unstable`, with -1 for an unset field) is fixed by the literal
`Version{0, -1, -1, false}` in src/main.go line 408.
-/

/-- Modelled from the spec: a version with partial specificity; `-1` means
an unset minor/patch field (src/main.go line 408 shows the layout). -/
structure Version where
  Major : Int
  Minor : Int
  Patch : Int
  Unstable : Bool
deriving DecidableEq, Repr

/-- Modelled from the spec: the distinguished sentinel value, ordered
lowest. -/
def InvalidVersion : Version := ⟨-1, -1, -1, false⟩

/-- Modelled from the spec: ordering compares major, then minor (unset,
i.e. -1, sorts lowest), then patch. -/
def Version.Less (v w : Version) : Bool :=
  if v.Major ≠ w.Major then decide (v.Major < w.Major)
  else if v.Minor ≠ w.Minor then decide (v.Minor < w.Minor)
  else decide (v.Patch < w.Patch)

/-- Modelled from the spec: false only for the sentinel. -/
def Version.IsValid (v : Version) : Bool := decide (v ≠ InvalidVersion)

/-- Modelled from the spec: `v.Contains w` iff every field set in `v`
equals the corresponding field of `w` and the unstable flags agree. -/
def Version.Contains (v w : Version) : Bool :=
  if v.Patch ≠ -1 then decide (v = w)
  else if v.Minor ≠ -1 then
    decide (v.Major = w.Major) && decide (v.Minor = w.Minor) && decide (v.Unstable = w.Unstable)
  else decide (v.Major = w.Major) && decide (v.Unstable = w.Unstable)

/-- ASCII decimal digit test. -/
def isDigitB (c : Nat) : Bool := decide (48 ≤ c) && decide (c ≤ 57)

/-- Decimal value of a digit string. -/
def decVal (s : Bytes) : Nat := s.foldl (fun a c => a * 10 + (c - 48)) 0

/-- Modelled from the spec: one numeric segment of a version token —
digits only, and no leading zero except for the literal `0`. -/
def parseNumSeg (s : Bytes) : Option Int :=
  if s = [] then none
  else if ¬ (s.all isDigitB) then none
  else if 1 < s.length ∧ s.head? = some 48 then none
  else some (decVal s)

/-- Split on the ASCII dot, keeping empty segments. -/
def splitDot : Bytes → List Bytes
  | [] => [[]]
  | c :: t =>
    match splitDot t with
    | [] => [[]]
    | h :: r => if c = 46 then [] :: h :: r else (c :: h) :: r

/-- Modelled from the spec: `parseVersion` accepts
`v<major>[.<minor>[.<patch>]][-unstable]` and rejects any syntactic
deviation.  `none` stands for Go's `ok = false`. -/
def parseVersion (s : Bytes) : Option Version :=
  match s with
  | 118 :: rest =>
    let unst := (strB "-unstable").isSuffixOf rest
    let core := if unst then rest.take (rest.length - 9) else rest
    match (splitDot core).mapM parseNumSeg with
    | some [a] => some ⟨a, -1, -1, unst⟩
    | some [a, b] => some ⟨a, b, -1, unst⟩
    | some [a, b, c] => some ⟨a, b, c, unst⟩
    | _ => none
  | _ => none

/-!
## The scan of changeRefs (src/main.go lines 337-405)
-/

/-- Outcome classification for `changeRefs`.  `outOfRange` models a Go
runtime panic from a slice expression whose bounds are invalid;
`diverge` models non-termination of the scan loop (it is proved
unreachable below, see the claim about termination). -/
inductive GoErr where
  | parseSize (hdr : Bytes)
  | incomplete
  | noVersion
  | outOfRange
  | diverge
deriving DecidableEq, Repr

/-- The mutable locals of the scan loop in `changeRefs`
(src/main.go lines 338-346). -/
structure ScanState where
  hlinei : Int
  hlinej : Int
  mlinei : Int
  mlinej : Int
  vrefhash : Bytes
  vrefname : Bytes
  vrefv : Version
  versions : List Version
deriving DecidableEq, Repr

/-- Initial values of the scan locals (zero spans, empty hash and name,
`InvalidVersion`, empty version list). -/
def initScan : ScanState := ⟨0, 0, 0, 0, [], [], InvalidVersion, []⟩

/-- The best-match condition of src/main.go line 396:
`ok && major.Contains(v) && (v == vrefv || !vrefv.IsValid() || vrefv.Less(v))`
(with `ok` handled by the caller through the option). -/
def bestGuard (major v vrefv : Version) : Bool :=
  major.Contains v && (decide (v = vrefv) || !vrefv.IsValid || vrefv.Less v)

/-- One iteration of the scan loop body of `changeRefs`
(src/main.go lines 349-404), entered with the loop guard `i < len data`
already established.  The loop variable `i` is an `Int` because Go `int`
arithmetic on it can go negative on adversarial input; every Go slice
expression goes through `goSlice`, whose `none` becomes
`GoErr.outOfRange` (a Go panic).  A normal iteration yields the next
cursor `j` and the updated locals. -/
def scanStep (data : Bytes) (major : Version) (i : Int) (st : ScanState) :
    Except GoErr (Int × ScanState) :=
  match goSlice data i (i + 4) with
  | none => .error .outOfRange
  | some hdr =>
    match parseInt16 hdr with
    | none => .error (.parseSize hdr)
    | some sz =>
      let size : Int := if sz = 0 then 4 else sz
      let j : Int := i + size
      if (data.length : Int) < j then .error .incomplete
      else if data.head? = some 35 then .ok (j, st)
      else
        match goSlice data (i + 4) j with
        | none => .error .outOfRange
        | some hashReg =>
          match indexOfB 32 hashReg with
          | none => .ok (j, st)
          | some hashOff =>
            if hashOff ≠ 40 then .ok (j, st)
            else
              let hashj : Int := (i + 4) + 40
              let namei : Int := hashj + 1
              match goSlice data namei j with
              | none => .error .outOfRange
              | some nameReg =>
                let namej : Int := match indexOfNL0 nameReg with
                  | none => j
                  | some k => (k : Int) + namei
                match goSlice data namei namej with
                | none => .error .outOfRange
                | some name =>
                  match goSlice data (i + 4) hashj with
                  | none => .error .outOfRange
                  | some hash =>
                    let st1 := if name = strB "HEAD" then
                      { st with hlinei := i, hlinej := j } else st
                    let st2 := if name = strB "refs/heads/master" then
                      { st1 with mlinei := i, mlinej := j } else st1
                    if (strB "refs/heads/v").isPrefixOf name ∨
                        (strB "refs/tags/v").isPrefixOf name then
                      let name2 := if (strB "^\x7b\x7d").isSuffixOf name then
                        name.take (name.length - 3) else name
                      match indexOfB 118 name2 with
                      | none => .error .outOfRange
                      | some vi =>
                        match parseVersion (name2.drop vi) with
                        | none => .ok (j, st2)
                        | some v =>
                          let st3 := if bestGuard major v st2.vrefv then
                            { st2 with vrefv := v, vrefhash := hash, vrefname := name2 }
                            else st2
                          .ok (j, { st3 with versions := st3.versions ++ [v] })
                    else .ok (j, st2)

/-- The scan loop of `changeRefs` (src/main.go lines 348-405): iterate
`scanStep` from the current cursor while the guard `i < len(data)`
holds, with explicit fuel (`diverge` when it runs out; proved
unreachable below). -/
def scanLoop (data : Bytes) (major : Version) :
    Nat → Int → ScanState → Except GoErr ScanState
  | 0, i, st =>
    if i < (data.length : Int) then .error .diverge else .ok st
  | fuel' + 1, i, st =>
    if i < (data.length : Int) then
      match scanStep data major i st with
      | .error e => .error e
      | .ok (j, st2) => scanLoop data major fuel' j st2
    else .ok st

/-- The full scan of `changeRefs`, with enough fuel for the whole input
(every productive iteration advances by at least 4 bytes). -/
def scanRefs (data : Bytes) (major : Version) : Except GoErr ScanState :=
  scanLoop data major (data.length + 1) 0 initScan

/-!
## The rewrite of changeRefs (src/main.go lines 407-458)
-/

/-- Lowercase hexadecimal digits of `n` (Go `%x` on a non-negative int). -/
def toHexB (n : Nat) : Bytes := (Nat.toDigits 16 n).map Char.toNat

/-- Go `fmt.Sprintf("%04x", n)`: zero-padded to at least four characters,
longer if the value needs more. -/
def hex4 (n : Nat) : Bytes :=
  List.replicate (4 - (toHexB n).length) 48 ++ toHexB n

/-- Frame a payload line: `fmt.Sprintf("%04x%s", 4+len(line), line)`
(src/main.go lines 444 and 448). -/
def encFrame (line : Bytes) : Bytes := hex4 (4 + line.length) ++ line

/-- Capability extraction of src/main.go lines 424-427: find the first NUL
inside the original HEAD frame `data[hlinei:hlinej]`; if it sits at a
positive offset, take the bytes from just after it to just before the
frame's last byte and rename every `symref=` to `oldref=`.  `none` is a Go
slice panic. -/
def capsOf (data : Bytes) (hlinei hlinej : Int) : Option Bytes :=
  match goSlice data hlinei hlinej with
  | none => none
  | some frame =>
    match indexOfB 0 frame with
    | some p =>
      if 0 < p then
        (goSlice data (hlinei + p + 1) (hlinej - 1)).map
          (fun c => replaceAll c (strB "symref=") (strB "oldref="))
      else some []
    | none => some []

/-- The synthesized HEAD payload line of src/main.go lines 430-443. -/
def newHeadLine (vrefhash vrefname caps : Bytes) : Bytes :=
  if (strB "refs/heads/").isPrefixOf vrefname then
    if caps = [] then
      vrefhash ++ strB " HEAD\x00symref=HEAD:" ++ vrefname ++ [10]
    else
      vrefhash ++ strB " HEAD\x00symref=HEAD:" ++ vrefname ++ [32] ++ caps ++ [10]
  else
    if caps = [] then vrefhash ++ strB " HEAD\n"
    else vrefhash ++ strB " HEAD\x00" ++ caps ++ [10]

/-- The post-scan part of `changeRefs` (src/main.go lines 407-458): the
major-zero-wildcard early return, the `ErrNoVersion` check, and the
buffer construction. -/
def rewriteAdv (data : Bytes) (major : Version) (st : ScanState) :
    Except GoErr (Bytes × List Version) :=
  if major = (⟨0, -1, -1, false⟩ : Version) then .ok (data, [])
  else if st.hlinei = 0 ∨ st.vrefhash = [] then .error .noVersion
  else
    match goSlice data 0 st.hlinei with
    | none => .error .outOfRange
    | some headPre =>
      match capsOf data st.hlinei st.hlinej with
      | none => .error .outOfRange
      | some caps =>
        let headF := encFrame (newHeadLine st.vrefhash st.vrefname caps)
        let masterF := encFrame (st.vrefhash ++ strB " refs/heads/master\n")
        if 0 < st.mlinei then
          match goSlice data st.hlinej st.mlinei, goSlice data st.mlinej (data.length : Int) with
          | some mid, some tl => .ok (headPre ++ headF ++ masterF ++ mid ++ tl, st.versions)
          | _, _ => .error .outOfRange
        else
          match goSlice data st.hlinej (data.length : Int) with
          | some tl => .ok (headPre ++ headF ++ masterF ++ tl, st.versions)
          | none => .error .outOfRange

/-- `changeRefs` (src/main.go lines 337-459): scan, then rewrite. -/
def changeRefs (data : Bytes) (major : Version) : Except GoErr (Bytes × List Version) :=
  match scanRefs data major with
  | .error e => .error e
  | .ok st => rewriteAdv data major st

/-!
## Wire-format frame records, following the words of the specification

These definitions follow spec section 4.2, independently of the code; they
are used to state claims about `changeRefs` outputs (counting the HEAD
and master frames of a stream) and the flush-frame property.
-/

/-- Reference records of an advertisement per spec section 4.2: walk the
frames; a frame is a record when its payload has a 40-character object id
followed by a single space; comment frames (payload starting `#`) and
flush frames yield no record.  `none` means the stream is malformed. -/
def specFramesAux (data : Bytes) : Nat → Nat → Option (List (Bytes × Bytes))
  | fuel, i =>
    if data.length ≤ i then some []
    else
      match fuel with
      | 0 => none
      | fuel' + 1 =>
        if data.length < i + 4 then none
        else
          match hexMag ((data.drop i).take 4) with
          | none => none
          | some n =>
            let size := if n = 0 then 4 else n
            let j := i + size
            if data.length < j ∨ size < 4 then none
            else
              let payload := (data.drop (i + 4)).take (size - 4)
              if payload.head? = some 35 then specFramesAux data fuel' j
              else
                match indexOfB 32 payload with
                | some 40 =>
                  let hash := payload.take 40
                  let name := (payload.drop 41).takeWhile (fun c => !(c = 10 ∨ c = 0))
                  (specFramesAux data fuel' j).map (fun l => (hash, name) :: l)
                | _ => specFramesAux data fuel' j

/-- All reference records of a stream (spec section 4.2). -/
def specFrameRecords (data : Bytes) : Option (List (Bytes × Bytes)) :=
  specFramesAux data (data.length + 1) 0

/-- Number of records of a stream carrying a given reference name. -/
def countName (l : List (Bytes × Bytes)) (nm : Bytes) : Nat :=
  (l.filter (fun r => decide (r.2 = nm))).length

/-- Capability string of a HEAD frame following the claim's words:
everything after the frame's first NUL byte, excluding the trailing
newline (when one is present). -/
def specCapsOf (frame : Bytes) : Bytes :=
  match indexOfB 0 frame with
  | none => []
  | some p =>
    let t := frame.drop (p + 1)
    if t.getLast? = some 10 then t.dropLast else t

/-!
## The request-path pattern and the handler's decomposition

src/main.go line 25:
`packagePattern = regexp.MustCompile("^/([a-zA-Z0-9]+)\\.?(v[1-9][0-9]*)?(.*)$")`
and its use in `newHandler` (src/main.go lines 203-240).
-/

/-- ASCII letter-or-digit, the character class of the pattern's first
group. -/
def isAlnumB (c : Nat) : Bool :=
  (decide (48 ≤ c) && decide (c ≤ 57)) ||
  (decide (65 ≤ c) && decide (c ≤ 90)) ||
  (decide (97 ≤ c) && decide (c ≤ 122))

/-- The pattern's second group `(v[1-9][0-9]*)?` matched greedily at the
front of `r2`: empty unless `r2` starts with `v` and a digit 1-9. -/
def verGroup (r2 : Bytes) : Bytes :=
  match r2 with
  | 118 :: d :: _ =>
    if 49 ≤ d ∧ d ≤ 57 then 118 :: d :: (r2.drop 2).takeWhile isDigitB else []
  | _ => []

/-- `packagePattern.FindStringSubmatch` on a path.  The pattern
anchors at both ends; the three groups are the greedy alphanumeric run,
the optional bare `v<major>` token (major starting 1-9, from
`verGroup`), and the rest.  The optional dot between them is consumed
but captured by no group, and `.` never matches a newline, so a path
containing one fails entirely. -/
def findSubmatchPkg (s : Bytes) : Option (Bytes × Bytes × Bytes) :=
  match s with
  | 47 :: rest =>
    let pkg := rest.takeWhile isAlnumB
    if pkg = [] then none
    else
      let r1 := rest.drop pkg.length
      let r2 := if r1.head? = some 46 then r1.drop 1 else r1
      let ver := verGroup r2
      let r3 := r2.drop ver.length
      if r3.contains 10 then none else some (pkg, ver, r3)
  | _ => none

/-- A rooted path on which Go `url.Parse` succeeds and returns the path
unchanged: printable ASCII with no percent escape, query or fragment
delimiter.  This models the external `net/url` collaborator at its
interface boundary, on the class of paths the handler claims range over. -/
def cleanPath (s : Bytes) : Bool :=
  decide (s.head? = some 47) &&
  s.all (fun c => decide (32 ≤ c) && decide (c ≤ 126) &&
    decide (c ≠ 37) && decide (c ≠ 63) && decide (c ≠ 35))

/-- Routing outcome of the handler prefix of `newHandler`
(src/main.go lines 204-227), up to and including the submatch access
`p[1]`.  `panicIndex` is the out-of-bounds access on a nil submatch
slice; `parseFailed` is the 500 branch for a path `url.Parse` rejects. -/
inductive Route where
  | healthCheck
  | missingPackage
  | parseFailed
  | panicIndex
  | proceed (pkg ver extra : Bytes)
deriving DecidableEq, Repr

/-- The handler prefix of `newHandler` (src/main.go lines 204-227) on
`req.URL.Path`, with `url.Parse` modelled by `cleanPath` (exact on the
clean-path class; paths outside it are conservatively sent to the 500
branch). -/
def route (path : Bytes) : Route :=
  if path = strB "/health-check" then .healthCheck
  else if path = strB "/" then .missingPackage
  else if ¬ cleanPath path then .parseFailed
  else
    match findSubmatchPkg path with
    | none => .panicIndex
    | some (pkg, ver, extra) => .proceed pkg ver extra

/-!
## Concrete advertisements used to settle the claims

Object ids are forty repeats of one ASCII character; frames are built with
`encFrame`, which produces exactly the length header the wire format
prescribes.
-/

/-- Forty-byte test object id, etc.: `n` copies of byte `c`. -/
def repB (n c : Nat) : Bytes := List.replicate n c

/-- The requested version `v1`. -/
def majorV1 : Version := ⟨1, -1, -1, false⟩

/-- The unconstrained major-zero wildcard request (src/main.go line 408). -/
def wildV0 : Version := ⟨0, -1, -1, false⟩

/-- A `refs/heads/master` reference frame (id `3333...`). -/
def advMaster : Bytes := encFrame (repB 40 51 ++ strB " refs/heads/master\n")

/-- A capability-free `HEAD` reference frame (id `2222...`). -/
def advHead : Bytes := encFrame (repB 40 50 ++ strB " HEAD\n")

/-- A `HEAD` frame with a capability list holding a `symref=` token. -/
def advHeadCaps : Bytes :=
  encFrame (repB 40 50 ++ strB " HEAD\x00multi agentcap symref=HEAD:refs/heads/main\n")

/-- A `HEAD` frame with capabilities but no trailing newline. -/
def advHeadNoNL : Bytes := encFrame (repB 40 50 ++ strB " HEAD\x00ab")

/-- A `refs/heads/v1` branch reference frame (id `4444...`). -/
def advV1 : Bytes := encFrame (repB 40 52 ++ strB " refs/heads/v1\n")

/-- A lightweight `refs/tags/v1.0.0` tag frame with object id `aaaa...`. -/
def advTagX : Bytes := encFrame (repB 40 97 ++ strB " refs/tags/v1.0.0\n")

/-- The peeled counterpart of the same tag, object id `bbbb...`. -/
def advTagY : Bytes := encFrame (repB 40 98 ++ strB " refs/tags/v1.0.0^\x7b\x7d\n")

/-- A non-reference frame (payload lacking the 40-hex-plus-space shape);
the scan must skip it while keeping its bytes. -/
def advBanner : Bytes := encFrame (strB "comm\n")

/-- A frame whose payload starts with `#` but carries its first space at
payload offset 40, so the bytes before the space parse as an object id. -/
def advComment : Bytes := encFrame (strB "#" ++ repB 39 99 ++ strB " refs/heads/v1\n")

/-!
## Helper lemmas
-/

theorem ifNoneSome {α : Type} {c : Prop} [Decidable c] {x y : α}
    (h : (if c then none else some x) = some y) : x = y := by
  split at h
  · cases h
  · exact Option.some.inj h

theorem verGroup_shape (r2 : Bytes) :
    verGroup r2 = [] ∨
    ∃ d ds, verGroup r2 = 118 :: d :: ds ∧ 49 ≤ d ∧ d ≤ 57 ∧ ds.all isDigitB = true := by
  unfold verGroup
  split
  · split
    · rename_i hd
      right
      exact ⟨_, _, rfl, hd.1, hd.2,
        List.all_eq_true.mpr (fun a ha => List.mem_takeWhile_imp ha)⟩
    · left; rfl
  · left; rfl

theorem goSlice_bounds {s : Bytes} {a b : Int} {t : Bytes} (h : goSlice s a b = some t) :
    0 ≤ a ∧ a ≤ b ∧ b ≤ (s.length : Int) ∧ t = (s.drop a.toNat).take (b - a).toNat := by
  unfold goSlice at h
  split at h
  · rename_i hc
    exact ⟨hc.1, hc.2.1, hc.2.2, (Option.some.inj h).symm⟩
  · cases h

theorem goSlice_from_zero {s : Bytes} {b : Int} {t : Bytes} (h : goSlice s 0 b = some t) :
    t = s.take b.toNat := by
  obtain ⟨-, -, -, ht⟩ := goSlice_bounds h
  simpa using ht

theorem goSlice_to_end {s : Bytes} {a : Int} {t : Bytes}
    (h : goSlice s a (s.length : Int) = some t) : t = s.drop a.toNat := by
  obtain ⟨h1, h2, -, ht⟩ := goSlice_bounds h
  rw [ht]
  have he : ((s.length : Int) - a).toNat = s.length - a.toNat := by omega
  rw [he]
  exact List.take_of_length_le (by simp)

/-!
## Claim C3 — the major-zero wildcard
-/

/-- Claim C3 (amended): when the requested version is the unconstrained
major-zero wildcard and the scan completes without a framing error,
`changeRefs` returns the input bytes unchanged with an empty
discovered-version list — unconditionally, whether or not version refs
exist (src/main.go lines 407-410 return before consulting the scan's
findings, and return a nil version list). -/
theorem C3_wildcard_unchanged (data : Bytes) (major : Version) (st : ScanState)
    (hscan : scanRefs data major = .ok st) (hmaj : major = wildV0) :
    changeRefs data major = .ok (data, []) := by
  subst hmaj
  have hscan' : scanRefs data (⟨0, -1, -1, false⟩ : Version) = .ok st := hscan
  simp [changeRefs, wildV0, hscan', rewriteAdv]

/-- Witness for the C3 theorem: a concrete advertisement, requested with
the wildcard, comes back unchanged. -/
theorem C3_wildcard_unchanged_witness :
    changeRefs advV1 wildV0 = .ok (advV1, []) :=
  C3_wildcard_unchanged advV1 wildV0
    { initScan with versions := [⟨1, -1, -1, false⟩] } (by rfl) rfl

/-- Claim C3 counterexample: an advertisement carrying the version ref
`refs/heads/v1` (the scan discovers version 1), requested with the
major-zero wildcard, still comes back unchanged with an empty
discovered-version list; the claim requires the unchanged return to
happen precisely when no version refs exist. -/
theorem C3_versions_exist_counterexample :
    changeRefs advV1 wildV0 = .ok (advV1, []) ∧
    scanRefs advV1 wildV0 = .ok { initScan with versions := [⟨1, -1, -1, false⟩] } :=
  ⟨rfl, rfl⟩

/-!
## Claim C4 — the VersionNotFound decision
-/

/-- Claim C4 (amended): for a non-wildcard request whose scan completed,
`changeRefs` fails with `ErrNoVersion` exactly when the recorded HEAD
span start is zero or no candidate qualified (empty best-match id).  The
code (src/main.go line 413) uses `hlinei == 0` as "no HEAD line found",
so a HEAD line that starts at byte offset 0 is treated as absent. -/
theorem C4_noversion_iff (data : Bytes) (major : Version) (st : ScanState)
    (hscan : scanRefs data major = .ok st) (hmaj : major ≠ wildV0) :
    (changeRefs data major = .error .noVersion ↔ st.hlinei = 0 ∨ st.vrefhash = []) := by
  have hmaj' : ¬ (major = (⟨0, -1, -1, false⟩ : Version)) := hmaj
  simp only [changeRefs, hscan]
  unfold rewriteAdv
  rw [if_neg hmaj']
  by_cases hg : st.hlinei = 0 ∨ st.vrefhash = []
  · simp [hg]
  · rw [if_neg hg]
    simp only [iff_false_intro hg, iff_false]
    intro h
    rcases h0 : goSlice data 0 st.hlinei with _ | headPre <;> simp only [h0] at h
    · simp at h
    · rcases hc : capsOf data st.hlinei st.hlinej with _ | caps <;> simp only [hc] at h
      · simp at h
      · by_cases hm : 0 < st.mlinei
        · rw [if_pos hm] at h
          rcases h1 : goSlice data st.hlinej st.mlinei with _ | mid <;>
            rcases h2 : goSlice data st.mlinej (data.length : Int) with _ | tl <;>
              simp [h1, h2] at h
        · rw [if_neg hm] at h
          rcases h1 : goSlice data st.hlinej (data.length : Int) with _ | tl <;>
            simp [h1] at h

/-- Witness for the C4 theorem: a concrete advertisement whose HEAD frame
starts at offset 9 and whose candidate qualifies is not classified as
version-not-found. -/
theorem C4_noversion_iff_witness :
    changeRefs (advBanner ++ advHead ++ advV1) majorV1 = .error .noVersion ↔
      (9 : Int) = 0 ∨ repB 40 52 = ([] : Bytes) :=
  C4_noversion_iff (advBanner ++ advHead ++ advV1) majorV1
    ⟨9, 59, 0, 0, repB 40 52, strB "refs/heads/v1", ⟨1, -1, -1, false⟩,
      [⟨1, -1, -1, false⟩]⟩ (by rfl) (by decide)

/-- Claim C4 counterexample: an advertisement that carries a HEAD line at
byte offset 0 together with a qualifying candidate (the scan records the
HEAD span end 50 and the candidate id), yet `changeRefs` reports
`ErrNoVersion`; the claim requires that such an input must not produce
the version-not-found error. -/
theorem C4_head_at_zero_counterexample :
    changeRefs (advHead ++ advV1) majorV1 = .error .noVersion ∧
    scanRefs (advHead ++ advV1) majorV1 =
      .ok ⟨0, 50, 0, 0, repB 40 52, strB "refs/heads/v1", ⟨1, -1, -1, false⟩,
        [⟨1, -1, -1, false⟩]⟩ :=
  ⟨rfl, rfl⟩

/-!
## Claim C6 — comment-line skipping
-/

set_option maxRecDepth 100000 in
/-- Claim C6 (code bug, evaluated at the failing input): the check meant
to skip `#` comment lines (src/main.go line 360) reads `sdata[0]` — the
first byte of the whole stream, which can never be `#` once the length
header at offset 0 has parsed — instead of the current frame's bytes.  A
frame whose payload begins with `#` but has its first space at payload
offset 40 is therefore treated as a reference line: it becomes the
best-match candidate, its version is added to the discovered set, and
the rewritten HEAD and master frames carry an object id beginning with
`#`.  (Its bytes are still copied verbatim ahead of the rewritten HEAD
frame, as the claim states.) -/
theorem C6_comment_frame_extracted :
    scanRefs (advComment ++ advHead) majorV1 =
      .ok ⟨59, 109, 0, 0, strB "#" ++ repB 39 99, strB "refs/heads/v1",
        ⟨1, -1, -1, false⟩, [⟨1, -1, -1, false⟩]⟩ ∧
    changeRefs (advComment ++ advHead) majorV1 =
      .ok (advComment ++
        encFrame ((strB "#" ++ repB 39 99) ++ strB " HEAD\x00symref=HEAD:refs/heads/v1\n") ++
        encFrame ((strB "#" ++ repB 39 99) ++ strB " refs/heads/master\n"),
        [⟨1, -1, -1, false⟩]) :=
  ⟨rfl, rfl⟩

/-!
## Claim C9 — the request-path version token
-/

/-- Claim C9 (amended): the handler decomposes paths with
`packagePattern` (src/main.go line 25), whose version group is the bare
token `v<major>` with a nonzero leading digit: whenever the match
succeeds, the version component is either empty or `v` followed by a
digit 1-9 and then decimal digits.  Minor, patch and `-unstable`
suffixes — and the literal token `v0` — are never part of the version
component; they are left to the trailing subpath group. -/
theorem C9_version_component_shape :
    (∀ s pkg ver extra, findSubmatchPkg s = some (pkg, ver, extra) →
      ver = [] ∨ ∃ d ds, ver = 118 :: d :: ds ∧ 49 ≤ d ∧ d ≤ 57 ∧ ds.all isDigitB = true) ∧
    findSubmatchPkg (strB "/foo.v2") = some (strB "foo", strB "v2", []) ∧
    findSubmatchPkg (strB "/foo.v10abc") = some (strB "foo", strB "v10", strB "abc") ∧
    findSubmatchPkg (strB "/foo.v1-unstable") =
      some (strB "foo", strB "v1", strB "-unstable") := by
  refine ⟨?_, rfl, rfl, rfl⟩
  intro s pkg ver extra h
  unfold findSubmatchPkg at h
  split at h
  · dsimp only at h
    split at h
    · cases h
    · have h2 := ifNoneSome h
      simp only [Prod.mk.injEq] at h2
      obtain ⟨-, hver, -⟩ := h2
      rw [← hver]
      exact verGroup_shape _
  · cases h

/-- Claim C9 counterexample: the path `/foo.v1.2` decomposes with version
component `v1` and subpath `.2` (the minor is folded into the subpath),
and `/foo.v0` decomposes with an empty version component and subpath
`v0`; the claim requires `v1.2` and `v0` to be accepted as version
components. -/
theorem C9_minor_in_subpath_counterexample :
    findSubmatchPkg (strB "/foo.v1.2") = some (strB "foo", strB "v1", strB ".2") ∧
    findSubmatchPkg (strB "/foo.v0") = some (strB "foo", [], strB "v0") :=
  ⟨rfl, rfl⟩

/-!
## Claim C10 — the handler's unchecked submatch access
-/

/-- Claim C10: the handler indexes the submatch slice of
`packagePattern.FindStringSubmatch` without a nil check
(src/main.go lines 223-225), so every request path other than `/` and
`/health-check` whose first segment does not start with an ASCII
alphanumeric character makes the match yield no submatches and the
access `p[1]` go out of bounds; the handler reaches neither its 404 nor
its 500 response for such paths. -/
theorem C10_nonalnum_first_segment (c : Nat) (rest : Bytes)
    (hAl : isAlnumB c = false) (hcp : cleanPath (47 :: c :: rest) = true) :
    route (47 :: c :: rest) = .panicIndex ∧ findSubmatchPkg (47 :: c :: rest) = none := by
  have hm : findSubmatchPkg (47 :: c :: rest) = none := by
    unfold findSubmatchPkg
    simp [List.takeWhile_cons, hAl]
  refine ⟨?_, hm⟩
  unfold route
  rw [if_neg ?h1, if_neg ?h2, if_neg ?h3]
  · rw [hm]
  case h1 =>
    intro he
    rw [show strB "/health-check" = [47, 104, 101, 97, 108, 116, 104, 45, 99, 104, 101, 99, 107]
      from rfl] at he
    have hc2 : c = 104 := (List.cons.inj (List.cons.inj he).2).1
    rw [hc2] at hAl
    have ht : isAlnumB 104 = true := rfl
    rw [ht] at hAl
    exact Bool.noConfusion hAl
  case h2 =>
    intro he
    rw [show strB "/" = [47] from rfl] at he
    simp at he
  case h3 =>
    exact not_not_intro hcp

/-- Witness for the C10 theorem: the path `/.git` routes to the
out-of-bounds submatch access. -/
theorem C10_nonalnum_first_segment_witness :
    route (strB "/.git") = .panicIndex ∧ findSubmatchPkg (strB "/.git") = none :=
  C10_nonalnum_first_segment 46 (strB "git") rfl rfl

/-!
## Claim C2 — the best-match rule and peeled-tag precedence
-/

theorem contains_major {a v : Version} (h : a.Contains v = true) : v.Major = a.Major := by
  unfold Version.Contains at h
  split at h
  · exact (congrArg Version.Major (of_decide_eq_true h)).symm
  · split at h
    · simp only [Bool.and_eq_true, decide_eq_true_eq] at h
      exact h.1.1.symm
    · simp only [Bool.and_eq_true, decide_eq_true_eq] at h
      exact h.1.symm

theorem contains_unstable {a v : Version} (h : a.Contains v = true) :
    v.Unstable = a.Unstable := by
  unfold Version.Contains at h
  split at h
  · exact (congrArg Version.Unstable (of_decide_eq_true h)).symm
  · split at h
    · simp only [Bool.and_eq_true, decide_eq_true_eq] at h
      exact h.2.symm
    · simp only [Bool.and_eq_true, decide_eq_true_eq] at h
      exact h.2.symm

theorem less_spec (v w : Version) :
    v.Less w = decide (v.Major < w.Major ∨ (v.Major = w.Major ∧
      (v.Minor < w.Minor ∨ (v.Minor = w.Minor ∧ v.Patch < w.Patch)))) := by
  unfold Version.Less
  by_cases h1 : v.Major = w.Major <;> by_cases h2 : v.Minor = w.Minor <;>
    simp [h1, h2]

theorem less_negation {v b : Version} (hu : v.Unstable = b.Unstable) :
    (decide (v = b) || b.Less v) = !(v.Less b) := by
  have he : decide (v = b) =
      decide (v.Major = b.Major ∧ v.Minor = b.Minor ∧ v.Patch = b.Patch) := by
    rw [decide_eq_decide]
    obtain ⟨vM, vm, vp, vu⟩ := v
    obtain ⟨bM, bm, bp, bu⟩ := b
    simp only at hu
    subst hu
    simp [Version.mk.injEq]
  rw [he, less_spec, less_spec, ← Bool.decide_or, ← decide_not, decide_eq_decide]
  omega

set_option maxRecDepth 100000 in
/-- Claim C2: during the scan a candidate becomes the new best match iff
its parsed Version is contained by the requested one and it is not
strictly less than the current best (`bestGuard`, src/main.go line 396);
for candidates with a non-negative major (every parsed version) and a
best that is either the `InvalidVersion` start value or itself a
qualified candidate, the guard equals exactly "contained and not
`Less` than the best" — ties (equality) keep the newest candidate.
Consequently, a lightweight `refs/tags/v1.0.0` with id `aaa...` followed
by its peeled counterpart (suffix stripped before parsing) with id
`bbb...` leaves `bbb...` as the selected object id for v1. -/
theorem C2_best_match_rule :
    (∀ (major v b : Version), 0 ≤ v.Major → major.Contains v = true →
        (b = InvalidVersion ∨ major.Contains b = true) →
        bestGuard major v b = (major.Contains v && !(v.Less b))) ∧
    scanRefs (advTagX ++ advTagY) majorV1 =
      .ok { initScan with
        vrefhash := repB 40 98, vrefname := strB "refs/tags/v1.0.0",
        vrefv := ⟨1, 0, 0, false⟩,
        versions := [⟨1, 0, 0, false⟩, ⟨1, 0, 0, false⟩] } := by
  constructor
  · intro major v b hv hcv hb
    unfold bestGuard
    rw [hcv, Bool.true_and, Bool.true_and]
    rcases hb with hb | hb
    · subst hb
      have h1 : InvalidVersion.IsValid = false := rfl
      rw [h1]
      have h2 : v.Less InvalidVersion = false := by
        have hM : InvalidVersion.Major = -1 := rfl
        unfold Version.Less
        rw [hM, if_pos (by omega : v.Major ≠ (-1 : Int))]
        exact decide_eq_false (by omega)
      rw [h2]
      simp
    · have huv := contains_unstable hcv
      have hub := contains_unstable hb
      have hMv := contains_major hcv
      have hMb := contains_major hb
      have hbv : b.IsValid = true := by
        unfold Version.IsValid
        refine decide_eq_true (fun he => ?_)
        rw [he] at hMb
        have h3 : (-1 : Int) = major.Major := hMb
        omega
      rw [hbv]
      have hu : v.Unstable = b.Unstable := by rw [huv, hub]
      calc (decide (v = b) || !true || b.Less v)
          = (decide (v = b) || b.Less v) := by simp
        _ = !(v.Less b) := less_negation hu
  · rfl

/-- Witness for the C2 theorem: the guard rule applied at the first
candidate of the peeled-tag scenario (best still invalid). -/
theorem C2_best_match_rule_witness :
    bestGuard majorV1 ⟨1, 2, -1, false⟩ InvalidVersion =
      (majorV1.Contains ⟨1, 2, -1, false⟩ &&
        !(Version.Less ⟨1, 2, -1, false⟩ InvalidVersion)) :=
  C2_best_match_rule.1 majorV1 ⟨1, 2, -1, false⟩ InvalidVersion (by decide) (by decide)
    (Or.inl rfl)

/-!
## Claim C8 — termination and the flush frame
-/

theorem goSlice_self {s : Bytes} {a : Int} (h0 : 0 ≤ a) (hl : a ≤ (s.length : Int)) :
    goSlice s a a = some [] := by
  unfold goSlice
  rw [if_pos ⟨h0, le_refl a, hl⟩]
  simp

theorem scanStep_shape (data : Bytes) (major : Version) (i : Int) (st : ScanState) :
    scanStep data major i st ≠ .error .diverge ∧
    ∀ j st2, scanStep data major i st = .ok (j, st2) →
      data.head? = some 35 ∨ i + 4 ≤ j := by
  have key : ∀ r, scanStep data major i st = r →
      r ≠ .error .diverge ∧
      ∀ j st2, r = .ok (j, st2) → data.head? = some 35 ∨ i + 4 ≤ j := by
    intro r hr
    unfold scanStep at hr
    rcases h1 : goSlice data i (i + 4) with _ | hdr <;> simp only [h1] at hr
    · subst hr; exact ⟨by simp, by simp⟩
    · rcases h2p : parseInt16 hdr with _ | sz <;> simp only [h2p] at hr
      · subst hr; exact ⟨by simp, by simp⟩
      · by_cases h3 : (data.length : Int) < i + (if sz = 0 then 4 else sz)
        · rw [if_pos h3] at hr
          subst hr; exact ⟨by simp, by simp⟩
        · rw [if_neg h3] at hr
          by_cases h4 : data.head? = some 35
          · rw [if_pos h4] at hr
            subst hr
            exact ⟨by simp, fun j st2 h => Or.inl h4⟩
          · rw [if_neg h4] at hr
            rcases h5 : goSlice data (i + 4) (i + (if sz = 0 then 4 else sz)) with _ | hashReg <;>
              simp only [h5] at hr
            · subst hr; exact ⟨by simp, by simp⟩
            · have hadv := (goSlice_bounds h5).2.1
              rcases h6 : indexOfB 32 hashReg with _ | hashOff <;> simp only [h6] at hr
              · subst hr
                refine ⟨by simp, fun j st2 h => ?_⟩
                simp only [Except.ok.injEq, Prod.mk.injEq] at h
                exact Or.inr (h.1 ▸ hadv)
              · by_cases h7 : hashOff ≠ 40
                · rw [if_pos h7] at hr
                  subst hr
                  refine ⟨by simp, fun j st2 h => ?_⟩
                  simp only [Except.ok.injEq, Prod.mk.injEq] at h
                  exact Or.inr (h.1 ▸ hadv)
                · rw [if_neg h7] at hr
                  rcases h8 : goSlice data (i + 4 + 40 + 1)
                      (i + (if sz = 0 then 4 else sz)) with _ | nameReg <;>
                    simp only [h8] at hr
                  · subst hr; exact ⟨by simp, by simp⟩
                  · rcases h9 : goSlice data (i + 4 + 40 + 1)
                        (match indexOfNL0 nameReg with
                          | none => i + (if sz = 0 then 4 else sz)
                          | some k => (k : Int) + (i + 4 + 40 + 1)) with _ | name <;>
                      simp only [h9] at hr
                    · subst hr; exact ⟨by simp, by simp⟩
                    · rcases h10 : goSlice data (i + 4) (i + 4 + 40) with _ | hash <;>
                        simp only [h10] at hr
                      · subst hr; exact ⟨by simp, by simp⟩
                      · by_cases h11 : (strB "refs/heads/v").isPrefixOf name ∨
                            (strB "refs/tags/v").isPrefixOf name
                        · rw [if_pos h11] at hr
                          rcases h12 : indexOfB 118
                              (if (strB "^\x7b\x7d").isSuffixOf name then
                                name.take (name.length - 3) else name) with _ | vi <;>
                            simp only [h12] at hr
                          · subst hr; exact ⟨by simp, by simp⟩
                          · rcases h13 : parseVersion
                                ((if (strB "^\x7b\x7d").isSuffixOf name then
                                  name.take (name.length - 3) else name).drop vi)
                                with _ | v <;> simp only [h13] at hr
                            · subst hr
                              refine ⟨by simp, fun j st2 h => ?_⟩
                              simp only [Except.ok.injEq, Prod.mk.injEq] at h
                              exact Or.inr (h.1 ▸ hadv)
                            · subst hr
                              refine ⟨by simp, fun j st2 h => ?_⟩
                              simp only [Except.ok.injEq, Prod.mk.injEq] at h
                              exact Or.inr (h.1 ▸ hadv)
                        · rw [if_neg h11] at hr
                          subst hr
                          refine ⟨by simp, fun j st2 h => ?_⟩
                          simp only [Except.ok.injEq, Prod.mk.injEq] at h
                          exact Or.inr (h.1 ▸ hadv)
  exact key _ rfl

theorem parseInt16_head35 {s : Bytes} (h : s.head? = some 35) : parseInt16 s = none := by
  match s, h with
  | 35 :: rest, _ => rfl

theorem goSlice_head {data : Bytes} {b : Int} {t : Bytes}
    (h : goSlice data 0 b = some t) (hb : 0 < b) : t.head? = data.head? := by
  have ht := goSlice_from_zero h
  rcases data with _ | ⟨a, rest⟩
  · simp at ht
    rw [ht]
  · have hk : b.toNat = (b.toNat - 1) + 1 := by omega
    rw [ht, hk]
    simp

theorem scanLoop_no_diverge (data : Bytes) (major : Version) (hh : data.head? ≠ some 35) :
    ∀ (fuel : Nat) (i : Int) (st : ScanState), (data.length : Int) ≤ i + 4 * fuel →
      scanLoop data major fuel i st ≠ .error .diverge := by
  intro fuel
  induction fuel with
  | zero =>
    intro i st hb
    unfold scanLoop
    rw [if_neg (by omega : ¬ i < (data.length : Int))]
    simp
  | succ n ih =>
    intro i st hb
    unfold scanLoop
    by_cases hlt : i < (data.length : Int)
    · rw [if_pos hlt]
      rcases hs : scanStep data major i st with e | p <;> simp only [hs]
      · intro hcon
        injection hcon with he
        have h1 := (scanStep_shape data major i st).1
        rw [hs, he] at h1
        exact h1 rfl
      · obtain ⟨j, st2⟩ := p
        have h2 := (scanStep_shape data major i st).2 j st2 hs
        rcases h2 with h2 | h2
        · exact absurd h2 hh
        · exact ih j st2 (by omega)
    · rw [if_neg hlt]
      simp

/-- Claim C8: the frame scan terminates on every finite input (the fueled
loop never exhausts its fuel, so the `diverge` outcome is unreachable); a
frame whose length field is all zeros advances the cursor by exactly 4
bytes with the state unchanged; and a stream consisting solely of a flush
frame scans to the initial state and parses to zero reference records
without error. -/
theorem C8_flush_and_termination :
    (∀ (data : Bytes) (major : Version), scanRefs data major ≠ .error .diverge) ∧
    (∀ (data : Bytes) (major : Version) (i : Int) (st : ScanState),
      goSlice data i (i + 4) = some (strB "0000") →
      scanStep data major i st = .ok (i + 4, st)) ∧
    (∀ major : Version, scanRefs (strB "0000") major = .ok initScan) ∧
    specFrameRecords (strB "0000") = some [] := by
  refine ⟨?_, ?_, fun major => rfl, rfl⟩
  · intro data major
    by_cases hh : data.head? = some 35
    · unfold scanRefs scanLoop
      by_cases hlen : (0 : Int) < (data.length : Int)
      · rw [if_pos hlen]
        rcases hs : scanStep data major 0 initScan with e | p <;> simp only [hs]
        · intro hcon
          injection hcon with he
          have h1 := (scanStep_shape data major 0 initScan).1
          rw [hs, he] at h1
          exact h1 rfl
        · exfalso
          unfold scanStep at hs
          rcases h4 : goSlice data 0 (0 + 4) with _ | hdr <;> simp only [h4] at hs
          · cases hs
          · have hhd : hdr.head? = some 35 := by
              rw [goSlice_head h4 (by norm_num), hh]
            rw [parseInt16_head35 hhd] at hs
            cases hs
      · rw [if_neg hlen]
        simp
    · exact scanLoop_no_diverge data major hh (data.length + 1) 0 initScan
        (by push_cast; omega)
  · intro data major i st hsl
    obtain ⟨hi0, -, hlen4, -⟩ := goSlice_bounds hsl
    unfold scanStep
    rw [hsl]
    simp only [show parseInt16 (strB "0000") = some (0 : Int) from rfl, if_true]
    rw [if_neg (by omega : ¬ (data.length : Int) < i + 4)]
    by_cases hh : data.head? = some 35
    · rw [if_pos hh]
    · rw [if_neg hh]
      rw [goSlice_self (by omega : (0 : Int) ≤ i + 4) (by omega : i + 4 ≤ (data.length : Int))]
      rfl

/-- Witness for the C8 theorem: the flush-frame step applied to the
four-byte flush stream at cursor 0. -/
theorem C8_flush_and_termination_witness :
    scanStep (strB "0000") majorV1 0 initScan = .ok (0 + 4, initScan) :=
  C8_flush_and_termination.2.1 (strB "0000") majorV1 0 initScan rfl

/-!
## Claim C7 — decoding errors, skipping, and out-of-range accesses
-/

theorem parseInt16_some_head {s : Bytes} {z : Int} (h : parseInt16 s = some z) :
    s.head? ≠ some 35 := by
  intro hh
  rw [parseInt16_head35 hh] at h
  cases h

/-- Claim C7 (amended): the scan returns the malformed-size error when
the four-byte length header does not parse, and the incomplete error
when the computed frame end exceeds the buffer; a frame whose payload
has no space at offset 40 is skipped without error (the step succeeds
and just advances); but `changeRefs` is not total — it performs an
out-of-range access (a Go slice panic, `GoErr.outOfRange`) when fewer
than 4 bytes remain at a frame start, and when a declared frame length
is 1, 2 or 3, because `sdata[i:i+4]` is sliced before any bounds check
and `sdata[i+4:j]` has its low bound above its high one. -/
theorem C7_decode_errors :
    (∀ (data : Bytes) (major : Version), 0 < data.length → data.length < 4 →
      changeRefs data major = .error .outOfRange) ∧
    (∀ (data : Bytes) (major : Version), 4 ≤ data.length →
      parseInt16 (data.take 4) = none →
      changeRefs data major = .error (.parseSize (data.take 4))) ∧
    (∀ (data : Bytes) (major : Version) (sz : Int), 4 ≤ data.length →
      parseInt16 (data.take 4) = some sz →
      (data.length : Int) < (if sz = 0 then 4 else sz) →
      changeRefs data major = .error .incomplete) ∧
    (∀ (data : Bytes) (major : Version) (sz : Int), 4 ≤ data.length →
      parseInt16 (data.take 4) = some sz → 1 ≤ sz → sz ≤ 3 →
      changeRefs data major = .error .outOfRange) ∧
    (∀ (data : Bytes) (major : Version) (i : Int) (st : ScanState) (hdr hashReg : Bytes)
      (sz : Int),
      goSlice data i (i + 4) = some hdr →
      parseInt16 hdr = some sz →
      ¬ ((data.length : Int) < i + (if sz = 0 then 4 else sz)) →
      data.head? ≠ some 35 →
      goSlice data (i + 4) (i + (if sz = 0 then 4 else sz)) = some hashReg →
      (∀ k, indexOfB 32 hashReg = some k → k ≠ 40) →
      scanStep data major i st = .ok (i + (if sz = 0 then 4 else sz), st)) := by
  refine ⟨?_, ?_, ?_, ?_, ?_⟩
  · intro data major h0 h4
    have hstep : scanStep data major 0 initScan = .error .outOfRange := by
      unfold scanStep
      rw [show goSlice data 0 (0 + 4) = none from by
        unfold goSlice
        rw [if_neg]
        rintro ⟨-, -, h3⟩
        push_cast at h3
        omega]
    unfold changeRefs scanRefs scanLoop
    rw [if_pos (by push_cast; omega : (0 : Int) < (data.length : Int))]
    simp only [hstep]
  · intro data major h4 hparse
    have hsl : goSlice data 0 (0 + 4) = some (data.take 4) := by
      unfold goSlice
      rw [if_pos ⟨le_refl 0, by omega, by push_cast; omega⟩]
      simp
    have hstep : scanStep data major 0 initScan = .error (.parseSize (data.take 4)) := by
      unfold scanStep
      simp only [hsl, hparse]
    unfold changeRefs scanRefs scanLoop
    rw [if_pos (by push_cast; omega : (0 : Int) < (data.length : Int))]
    simp only [hstep]
  · intro data major sz h4 hparse hinc
    have hsl : goSlice data 0 (0 + 4) = some (data.take 4) := by
      unfold goSlice
      rw [if_pos ⟨le_refl 0, by omega, by push_cast; omega⟩]
      simp
    have hstep : scanStep data major 0 initScan = .error .incomplete := by
      unfold scanStep
      simp only [hsl, hparse]
      rw [if_pos (by simpa using hinc)]
    unfold changeRefs scanRefs scanLoop
    rw [if_pos (by push_cast; omega : (0 : Int) < (data.length : Int))]
    simp only [hstep]
  · intro data major sz h4 hparse hs1 hs3
    have hsl : goSlice data 0 (0 + 4) = some (data.take 4) := by
      unfold goSlice
      rw [if_pos ⟨le_refl 0, by omega, by push_cast; omega⟩]
      simp
    have hne : data.head? ≠ some 35 := by
      intro hh
      refine parseInt16_some_head hparse ?_
      rcases data with _ | ⟨a, t⟩
      · cases hh
      · simpa using hh
    have hstep : scanStep data major 0 initScan = .error .outOfRange := by
      unfold scanStep
      simp only [hsl, hparse]
      rw [if_neg (by omega : ¬ sz = 0)]
      rw [if_neg (by push_cast; omega : ¬ (data.length : Int) < 0 + sz)]
      rw [if_neg hne]
      rw [show goSlice data (0 + 4) (0 + sz) = none from by
        unfold goSlice
        rw [if_neg]
        rintro ⟨-, h2, -⟩
        omega]
    unfold changeRefs scanRefs scanLoop
    rw [if_pos (by push_cast; omega : (0 : Int) < (data.length : Int))]
    simp only [hstep]
  · intro data major i st hdr hashReg sz hsl hparse hinc hhead hreg hk
    unfold scanStep
    simp only [hsl, hparse]
    rw [if_neg hinc, if_neg hhead]
    simp only [hreg]
    rcases hidx : indexOfB 32 hashReg with _ | k <;> simp only [hidx]
    rw [if_pos (hk k hidx)]

/-- Witness for the C7 theorem: a stream whose length header is not
hexadecimal produces the malformed-size error. -/
theorem C7_decode_errors_witness :
    changeRefs (strB "zzzzabcd") majorV1 = .error (.parseSize (strB "zzzz")) :=
  C7_decode_errors.2.1 (strB "zzzzabcd") majorV1 (by decide) rfl

/-- Claim C7 counterexample: `changeRefs` is not total — a two-byte
stream and a frame declaring length 2 both make it read out of range
(a Go slice panic), where the claim requires no out-of-range access. -/
theorem C7_short_input_counterexample :
    changeRefs (strB "00") majorV1 = .error .outOfRange ∧
    changeRefs (strB "0002abcd") majorV1 = .error .outOfRange :=
  ⟨rfl, rfl⟩

/-!
## Claim C1 — the rewrite invariant
-/

set_option maxRecDepth 100000 in
/-- Claim C1 counterexample: an advertisement whose `refs/heads/master`
frame starts at byte offset 0 rewrites successfully, but the original
master frame survives in the copied header region (the excision test
`mlinei > 0` treats a span starting at 0 as absent), so the output
carries two `refs/heads/master` records; the claim requires exactly
one. -/
theorem C1_master_at_zero_counterexample :
    changeRefs (advMaster ++ advHead ++ advV1) majorV1 =
      .ok (advMaster ++
        encFrame (repB 40 52 ++ strB " HEAD\x00symref=HEAD:refs/heads/v1\n") ++
        encFrame (repB 40 52 ++ strB " refs/heads/master\n") ++ advV1,
        [⟨1, -1, -1, false⟩]) ∧
    (specFrameRecords (advMaster ++
        encFrame (repB 40 52 ++ strB " HEAD\x00symref=HEAD:refs/heads/v1\n") ++
        encFrame (repB 40 52 ++ strB " refs/heads/master\n") ++ advV1)).map
      (fun l => countName l (strB "refs/heads/master")) = some 2 :=
  ⟨rfl, rfl⟩

/-- Claim C1 (amended): for every successful non-wildcard rewrite, the
output is exactly — the bytes preceding the recorded HEAD span copied
verbatim, a synthesized HEAD frame carrying the selected object id, a
synthesized master frame carrying the same id, and then the remainder of
the input after the HEAD span, with the recorded master span excised
only when its start offset is positive; the returned version list is the
scan's discovered set.  (Exactly-one-HEAD/master does not hold in
general: frames surviving in the copied regions can duplicate them, as
the counterexample shows.) -/
theorem C1_rewrite_structure (data : Bytes) (major : Version) (st : ScanState)
    (out : Bytes) (vs : List Version)
    (hmaj : major ≠ wildV0)
    (hscan : scanRefs data major = .ok st)
    (hok : changeRefs data major = .ok (out, vs)) :
    vs = st.versions ∧
    ∃ caps restHead,
      capsOf data st.hlinei st.hlinej = some caps ∧
      newHeadLine st.vrefhash st.vrefname caps = st.vrefhash ++ restHead ∧
      out = data.take st.hlinei.toNat ++
        encFrame (st.vrefhash ++ restHead) ++
        encFrame (st.vrefhash ++ strB " refs/heads/master\n") ++
        (if 0 < st.mlinei then
          (data.drop st.hlinej.toNat).take (st.mlinei - st.hlinej).toNat ++
            data.drop st.mlinej.toNat
        else data.drop st.hlinej.toNat) := by
  simp only [changeRefs, hscan] at hok
  unfold rewriteAdv at hok
  rw [if_neg (show ¬ major = (⟨0, -1, -1, false⟩ : Version) from hmaj)] at hok
  by_cases hg : st.hlinei = 0 ∨ st.vrefhash = []
  · rw [if_pos hg] at hok
    cases hok
  · rw [if_neg hg] at hok
    rcases h0 : goSlice data 0 st.hlinei with _ | headPre <;> simp only [h0] at hok
    · cases hok
    · rcases hc : capsOf data st.hlinei st.hlinej with _ | caps <;> simp only [hc] at hok
      · cases hok
      · have hpre : headPre = data.take st.hlinei.toNat := goSlice_from_zero h0
        have hnh : ∃ restHead,
            newHeadLine st.vrefhash st.vrefname caps = st.vrefhash ++ restHead := by
          unfold newHeadLine
          split
          · split
            · exact ⟨strB " HEAD\x00symref=HEAD:" ++ st.vrefname ++ [10], by simp⟩
            · exact ⟨strB " HEAD\x00symref=HEAD:" ++ st.vrefname ++ [32] ++ caps ++ [10],
                by simp⟩
          · split
            · exact ⟨strB " HEAD\n", rfl⟩
            · exact ⟨strB " HEAD\x00" ++ caps ++ [10], by simp⟩
        obtain ⟨restHead, hrh⟩ := hnh
        by_cases hm : 0 < st.mlinei
        · rw [if_pos hm] at hok
          rcases h1 : goSlice data st.hlinej st.mlinei with _ | mid <;>
            rcases h2 : goSlice data st.mlinej (data.length : Int) with _ | tl <;>
              simp only [h1, h2] at hok
          · cases hok
          · cases hok
          · cases hok
          · simp only [Except.ok.injEq, Prod.mk.injEq] at hok
            obtain ⟨ho, hv⟩ := hok
            refine ⟨hv.symm, caps, restHead, rfl, hrh, ?_⟩
            rw [if_pos hm, ← ho, hpre, hrh,
              (goSlice_bounds h1).2.2.2, goSlice_to_end h2]
            simp
        · rw [if_neg hm] at hok
          rcases h1 : goSlice data st.hlinej (data.length : Int) with _ | tl <;>
            simp only [h1] at hok
          · cases hok
          · simp only [Except.ok.injEq, Prod.mk.injEq] at hok
            obtain ⟨ho, hv⟩ := hok
            refine ⟨hv.symm, caps, restHead, rfl, hrh, ?_⟩
            rw [if_neg hm, ← ho, hpre, hrh, goSlice_to_end h1]

set_option maxRecDepth 100000 in
/-- Witness for the C1 theorem: structure of the rewritten concrete
advertisement (banner frame, capability-free HEAD, v1 branch). -/
theorem C1_rewrite_structure_witness :
    [(⟨1, -1, -1, false⟩ : Version)] =
      (⟨9, 59, 0, 0, repB 40 52, strB "refs/heads/v1", ⟨1, -1, -1, false⟩,
        [⟨1, -1, -1, false⟩]⟩ : ScanState).versions ∧
    ∃ caps restHead,
      capsOf (advBanner ++ advHead ++ advV1) 9 59 = some caps ∧
      newHeadLine (repB 40 52) (strB "refs/heads/v1") caps = repB 40 52 ++ restHead ∧
      advBanner ++
          encFrame (repB 40 52 ++ strB " HEAD\x00symref=HEAD:refs/heads/v1\n") ++
          encFrame (repB 40 52 ++ strB " refs/heads/master\n") ++ advV1 =
        (advBanner ++ advHead ++ advV1).take (Int.toNat 9) ++
        encFrame (repB 40 52 ++ restHead) ++
        encFrame (repB 40 52 ++ strB " refs/heads/master\n") ++
        (if (0 : Int) < 0 then
          ((advBanner ++ advHead ++ advV1).drop (Int.toNat 59)).take
              (Int.toNat (0 - 59)) ++
            (advBanner ++ advHead ++ advV1).drop (Int.toNat 0)
        else (advBanner ++ advHead ++ advV1).drop (Int.toNat 59)) :=
  C1_rewrite_structure (advBanner ++ advHead ++ advV1) majorV1
    ⟨9, 59, 0, 0, repB 40 52, strB "refs/heads/v1", ⟨1, -1, -1, false⟩,
      [⟨1, -1, -1, false⟩]⟩
    (advBanner ++ encFrame (repB 40 52 ++ strB " HEAD\x00symref=HEAD:refs/heads/v1\n") ++
      encFrame (repB 40 52 ++ strB " refs/heads/master\n") ++ advV1)
    [⟨1, -1, -1, false⟩] (by decide) rfl rfl

/-!
## Claim C5 — the synthesized HEAD frame's capabilities
-/

theorem take_dropLast_eq {x : Bytes} {k : Nat} (hk : k ≤ x.length) :
    (x.take k).dropLast = x.take (k - 1) := by
  rw [List.dropLast_eq_take, List.length_take, List.take_take]
  congr 1
  omega

theorem indexOfB_mem : ∀ {s : Bytes} {c p : Nat}, indexOfB c s = some p →
    p < s.length ∧ s.get? p = some c := by
  intro s
  induction s with
  | nil => intro c p h; cases h
  | cons a t ih =>
    intro c p h
    unfold indexOfB at h
    split at h
    · rename_i ha
      cases h
      exact ⟨by simp, by simp [ha]⟩
    · rw [Option.map_eq_some'] at h
      obtain ⟨q, hq, hh⟩ := h
      obtain ⟨hlt, hget⟩ := ih hq
      subst hh
      exact ⟨by simpa using Nat.succ_lt_succ hlt, by simpa using hget⟩

theorem capsOf_slice {data : Bytes} {hi hj : Int} {frame : Bytes} {p : Nat}
    (hf : goSlice data hi hj = some frame)
    (hp2 : (p : Int) + 2 ≤ hj - hi) :
    goSlice data (hi + (p : Int) + 1) (hj - 1) = some ((frame.drop (p + 1)).dropLast) := by
  obtain ⟨h0, h1, h2, hval⟩ := goSlice_bounds hf
  unfold goSlice
  rw [if_pos ⟨by omega, by omega, by omega⟩]
  congr 1
  rw [hval, List.drop_take, List.drop_drop,
    take_dropLast_eq (by simp only [List.length_drop]; omega)]
  have e1 : (hi + (p : Int) + 1).toNat = hi.toNat + (p + 1) := by omega
  have e2 : ((hj - 1) - (hi + (p : Int) + 1)).toNat = (hj - hi).toNat - (p + 1) - 1 := by
    omega
  rw [e1, e2]

theorem capsOf_newline {data : Bytes} {hi hj : Int} {frame : Bytes} {p : Nat}
    (hf : goSlice data hi hj = some frame)
    (hp : indexOfB 0 frame = some p) (hp0 : 0 < p)
    (hnl : frame.getLast? = some 10) :
    capsOf data hi hj =
      some (replaceAll ((frame.drop (p + 1)).dropLast) (strB "symref=") (strB "oldref=")) := by
  obtain ⟨hlt, hget⟩ := indexOfB_mem hp
  obtain ⟨h0, h1, h2, hval⟩ := goSlice_bounds hf
  have hlen : frame.length = (hj - hi).toNat := by
    rw [hval, List.length_take, List.length_drop]
    omega
  have hpn : p ≠ frame.length - 1 := by
    intro he
    rw [List.getLast?_eq_get?, ← he, hget] at hnl
    cases hnl
  have hp2 : (p : Int) + 2 ≤ hj - hi := by omega
  unfold capsOf
  simp only [hf, hp, if_pos hp0, capsOf_slice hf hp2, Option.map_some']

set_option maxRecDepth 1000000 in
/-- Claim C5 (amended): the capability string the rewrite carries over is
the bytes strictly between the original HEAD frame's first NUL and the
frame's last byte, with every `symref=` occurrence renamed to `oldref=`;
when the frame ends with the wire format's trailing newline this is
exactly "everything after the first NUL excluding that newline", as the
claim words it (first conjunct).  A branch selection emits
`symref=HEAD:<ref-name>` space-joined with that string when non-empty; a
tag selection emits no symref capability and no NUL segment at all when
the string is empty (second and third conjuncts, and the two end-to-end
rewrites). -/
theorem C5_capability_handling :
    (∀ (data : Bytes) (hi hj : Int) (frame : Bytes) (p : Nat),
      goSlice data hi hj = some frame →
      indexOfB 0 frame = some p → 0 < p →
      frame.getLast? = some 10 →
      capsOf data hi hj =
        some (replaceAll ((frame.drop (p + 1)).dropLast)
          (strB "symref=") (strB "oldref="))) ∧
    (∀ h n caps, (strB "refs/heads/").isPrefixOf n = true →
      newHeadLine h n caps = h ++ strB " HEAD\x00symref=HEAD:" ++ n ++
        (if caps = [] then [10] else [32] ++ caps ++ [10])) ∧
    (∀ h n caps, (strB "refs/heads/").isPrefixOf n = false →
      newHeadLine h n caps = (if caps = [] then h ++ strB " HEAD\n"
        else h ++ strB " HEAD\x00" ++ caps ++ [10])) ∧
    changeRefs (advBanner ++ advHeadCaps ++ advV1) majorV1 =
      .ok (advBanner ++
        encFrame (repB 40 52 ++
          strB " HEAD\x00symref=HEAD:refs/heads/v1 multi agentcap oldref=HEAD:refs/heads/main\n") ++
        encFrame (repB 40 52 ++ strB " refs/heads/master\n") ++ advV1,
        [⟨1, -1, -1, false⟩]) ∧
    changeRefs (advBanner ++ advHead ++ advTagX ++ advTagY) majorV1 =
      .ok (advBanner ++
        encFrame (repB 40 98 ++ strB " HEAD\n") ++
        encFrame (repB 40 98 ++ strB " refs/heads/master\n") ++ advTagX ++ advTagY,
        [⟨1, 0, 0, false⟩, ⟨1, 0, 0, false⟩]) := by
  refine ⟨?_, ?_, ?_, rfl, rfl⟩
  · intro data hi hj frame p hf hp hp0 hnl
    exact capsOf_newline hf hp hp0 hnl
  · intro h n caps hpre
    unfold newHeadLine
    rw [if_pos hpre]
    split <;> simp
  · intro h n caps hpre
    unfold newHeadLine
    rw [if_neg (by simp [hpre])]

set_option maxRecDepth 1000000 in
/-- Witness for the C5 theorem: the capability extraction applied to the
concrete HEAD frame with capabilities. -/
theorem C5_capability_handling_witness :
    capsOf (advBanner ++ advHeadCaps ++ advV1) 9 102 =
      some (replaceAll ((advHeadCaps.drop 50).dropLast)
        (strB "symref=") (strB "oldref=")) :=
  C5_capability_handling.1 (advBanner ++ advHeadCaps ++ advV1) 9 102 advHeadCaps 49
    rfl rfl (by decide) rfl

set_option maxRecDepth 1000000 in
/-- Claim C5 counterexample: a HEAD frame whose capability section is not
newline-terminated (`... HEAD\x00ab`) rewrites successfully, but the
carried capability string is `a` — the frame's last byte is dropped
unconditionally — while the claim's recipe ("everything after the first
NUL, excluding the trailing newline", modelled by `specCapsOf`) yields
`ab`. -/
theorem C5_missing_newline_counterexample :
    changeRefs (advBanner ++ advHeadNoNL ++ advV1) majorV1 =
      .ok (advBanner ++
        encFrame (repB 40 52 ++ strB " HEAD\x00symref=HEAD:refs/heads/v1 a\n") ++
        encFrame (repB 40 52 ++ strB " refs/heads/master\n") ++ advV1,
        [⟨1, -1, -1, false⟩]) ∧
    specCapsOf advHeadNoNL = strB "ab" ∧
    capsOf (advBanner ++ advHeadNoNL ++ advV1) 9 61 = some (strB "a") ∧
    strB "ab" ≠ strB "a" :=
  ⟨rfl, rfl, rfl, by decide⟩
